import Mathlib

/-!
Verification of the tabular data transformation and filtering engine of the
invengo dashboard (the `SheetDataViewer` component).

The grid pipeline (reorder → facet derivation → row filtering → column
visibility) and the fetch lifecycle are embedded as total, executable Lean
functions translated from the TypeScript source.  JavaScript peculiarities are
modelled explicitly:

* a cell read `row[i]` beyond the end of a row yields `undefined`; everywhere
  the code consumes such a value it behaves like the empty string for the
  properties considered here, so out-of-range reads are modelled as `""`
  (`List.getD`), matching the stated tolerance for ragged rows;
* `Array.prototype.findIndex` returning `-1` is modelled as `Option Nat`;
* `parseInt(s, 10)` (leading whitespace, optional sign, longest digit run) is
  modelled by `parseIntJS`, returning `none` for `NaN`;
* `String.prototype.toLowerCase` / `trim` are modelled per ASCII character
  (`Char.toLower` / dropping `Char.isWhitespace` from both ends), which agrees
  with JavaScript on the ASCII strings the sheets contain;
* a React `useState`/`useEffect` pair is modelled as an explicit state
  transition function.
-/

namespace Invengo

/-- A raw sheet grid: a list of rows, each row a list of cell strings. -/
abbrev Grid := List (List String)

/-- JavaScript `s.trim()`: drop whitespace from both ends (ASCII model). -/
def jsTrim (s : String) : String :=
  ⟨(((s.data.dropWhile Char.isWhitespace).reverse).dropWhile Char.isWhitespace).reverse⟩

/-- JavaScript `s.toLowerCase()` (ASCII model). -/
def lowerStr (s : String) : String :=
  ⟨s.data.map Char.toLower⟩

/-- The normalization `header.toLowerCase().trim()` applied to every header
cell before comparing with a column label. -/
def normLabel (s : String) : String :=
  jsTrim (lowerStr s)

/-- Whether a header cell matches a column label, as in
`header.toLowerCase().trim() === label`. -/
def matchesLabel (lbl : String) (s : String) : Bool :=
  normLabel s == lbl

/-- JavaScript `Array.prototype.findIndex`: index of the first element
satisfying `p`, `none` when there is none (the source's `-1`). -/
def firstIdx (p : α → Bool) : List α → Option Nat
  | [] => none
  | x :: xs => if p x then some 0 else (firstIdx p xs).map (· + 1)

/-- JavaScript `row.filter((_, index) => index !== i)`: remove the cell at
index `i` (the row is unchanged when `i` is out of range). -/
def removeAt (i : Nat) : List α → List α
  | [] => []
  | x :: xs =>
    match i with
    | 0 => xs
    | j + 1 => x :: removeAt j xs

/-- JavaScript `arr.splice(i, 0, x)`: insert `x` at index `i`, clamped to the
end of the list when `i` exceeds its length. -/
def spliceInsert (i : Nat) (x : α) : List α → List α
  | [] => [x]
  | y :: ys =>
    match i with
    | 0 => x :: y :: ys
    | j + 1 => y :: spliceInsert j x ys

/-- One row of the `reorderedData` transformation: remove the cabinet cell at
index `c` and re-insert it just after the (possibly shifted) area index `a`. -/
def reorderRow (a c : Nat) (row : List String) : List String :=
  spliceInsert ((if c < a then a - 1 else a) + 1) (row.getD c "") (removeAt c row)

/-- The `reorderedData` memo for the equipment dataset: locate the `area` and
`cabinet` columns in header row 0; when both exist and `cabinet` is not already
immediately after `area`, move the cabinet cell of every row next to the area
cell. -/
def reorder (g : Grid) : Grid :=
  match g with
  | [] => []
  | row0 :: rest =>
    match firstIdx (matchesLabel "area") row0, firstIdx (matchesLabel "cabinet") row0 with
    | some a, some c =>
      if c = a + 1 then row0 :: rest
      else (row0 :: rest).map (reorderRow a c)
    | some _, none => row0 :: rest
    | none, _ => row0 :: rest

/-- The specification's description of one reordered row, written directly as
"remove the cabinet cell and reinsert it immediately after the (possibly
shifted) area position, preserving the order of all other cells": the cells
before the new position, then the cabinet cell, then the remaining cells, all
in source order.  Used to compare `reorderRow` (from the source) against the
spec's words. -/
def reorderRowAsSpecified (a c : Nat) (row : List String) : List String :=
  if c < a then
    row.take c ++ ((row.drop (c + 1)).take (a - c) ++ row.getD c "" :: row.drop (a + 1))
  else
    row.take (a + 1) ++ row.getD c "" :: ((row.take c).drop (a + 1) ++ row.drop (c + 1))

/-- Whether `pat` is an initial segment of `l` (helper for modelling
`String.prototype.includes`). -/
def leadsList [BEq α] : List α → List α → Bool
  | [], _ => true
  | _ :: _, [] => false
  | a :: as, b :: bs => a == b && leadsList as bs

/-- Whether `pat` occurs as a contiguous segment of `l`. -/
def hasSeg [BEq α] (pat : List α) : List α → Bool
  | [] => leadsList pat []
  | x :: rest => leadsList pat (x :: rest) || hasSeg pat rest

/-- JavaScript `s.includes(pat)`: substring containment. -/
def strIncludes (s pat : String) : Bool :=
  hasSeg pat.data s.data

/-- Numeric value of a decimal digit character. -/
def digitVal (c : Char) : Nat :=
  c.toNat - '0'.toNat

/-- JavaScript `parseInt(s, 10)`: skip leading whitespace, read an optional
sign and then the longest run of decimal digits; `NaN` (here `none`) when that
run is empty, otherwise the signed value of those digits, ignoring trailing
garbage. -/
def parseIntJS (s : String) : Option Int :=
  let cs := s.data.dropWhile Char.isWhitespace
  let signed : Bool × List Char :=
    match cs with
    | '-' :: rest => (true, rest)
    | '+' :: rest => (false, rest)
    | _ => (false, cs)
  let ds := signed.2.takeWhile Char.isDigit
  if ds.isEmpty then none
  else
    let n : Nat := ds.foldl (fun acc c => acc * 10 + digitVal c) 0
    some (if signed.1 then -(n : Int) else (n : Int))

/-- Helper for `jsUnique`: drop elements already seen, first-seen order. -/
def dedupSeen (seen : List String) : List String → List String
  | [] => []
  | x :: xs =>
    if seen.contains x then dedupSeen seen xs
    else x :: dedupSeen (x :: seen) xs

/-- JavaScript `[...new Set(xs)]`: deduplicate, keeping the first occurrence
of each value in order. -/
def jsUnique (l : List String) : List String :=
  dedupSeen [] l

/-- The `typeColumnIndex` computed by the `types` memo: `none` (the source's
`-1`) when the view is not filterable, the grid has no row below the header
rows, or no header-row-0 cell matches `type`. -/
def typeColumnIndex (isFilterableView : Bool) (headerRowCount : Nat) (g : Grid) : Option Nat :=
  if !isFilterableView then none
  else if g.length < headerRowCount + 1 then none
  else firstIdx (matchesLabel "type") (g.headD [])

/-- The `areaColumnIndex` computed by the `areas` memo. -/
def areaColumnIndex (headerRowCount : Nat) (g : Grid) : Option Nat :=
  if g.length < headerRowCount + 1 then none
  else firstIdx (matchesLabel "area") (g.headD [])

/-- The `cabinetColumnIndex` computed by the `cabinets` memo (found whenever
the equipment grid has data rows, independently of the selected area). -/
def cabinetColumnIndex (isEquipmentView : Bool) (headerRowCount : Nat) (g : Grid) : Option Nat :=
  if !isEquipmentView then none
  else if g.length < headerRowCount + 1 then none
  else firstIdx (matchesLabel "cabinet") (g.headD [])

/-- The non-empty cell values of column `i` across `rows`, as computed by
`rows.map(row => row[i]).filter(Boolean)`. -/
def columnValues (i : Nat) (rows : Grid) : List String :=
  (rows.map (fun r => r.getD i "")).filter (fun s => s != "")

/-- The `types` facet option list: `All` followed by the deduplicated
non-empty values of the `type` column across data rows; empty when the facet
is disabled. -/
def typesOptions (isFilterableView : Bool) (headerRowCount : Nat) (g : Grid) : List String :=
  match typeColumnIndex isFilterableView headerRowCount g with
  | none => []
  | some i => "All" :: jsUnique (columnValues i (g.drop headerRowCount))

/-- The `areas` facet option list. -/
def areasOptions (headerRowCount : Nat) (g : Grid) : List String :=
  match areaColumnIndex headerRowCount g with
  | none => []
  | some i => "All" :: jsUnique (columnValues i (g.drop headerRowCount))

/-- The `cabinets` facet option list: enabled only for the equipment view
when a concrete area is selected; `All` followed by the deduplicated
non-empty cabinet values of the rows matching the selected area, or empty
when no such value exists. -/
def cabinetsOptions (isEquipmentView : Bool) (selectedArea : String)
    (headerRowCount : Nat) (g : Grid) : List String :=
  match cabinetColumnIndex isEquipmentView headerRowCount g with
  | none => []
  | some ci =>
    if selectedArea == "All" then []
    else
      match areaColumnIndex headerRowCount g with
      | none => []
      | some ai =>
        let u := jsUnique (columnValues ci
          ((g.drop headerRowCount).filter (fun r => r.getD ai "" == selectedArea)))
        if u.isEmpty then [] else "All" :: u

/-- The client-local filter state (one `useState` per field). -/
structure FilterState where
  selectedType : String
  selectedArea : String
  selectedCabinet : String
  searchTerm : String
deriving DecidableEq

/-- The handler `setSelectedArea` as fired from the area facet buttons,
combined with the
`useEffect` on `[selectedArea]`: when the value actually changes, React
re-renders and the effect resets the cabinet selection to `All`; setting the
same value again does not re-render and runs no effect. -/
def selectArea (v : String) (s : FilterState) : FilterState :=
  if v == s.selectedArea then s
  else { s with selectedArea := v, selectedCabinet := "All" }

/-- The handler `setSelectedCabinet` as fired from the cabinet dropdown; no
effect depends on `selectedCabinet`, so nothing else changes. -/
def selectCabinet (v : String) (s : FilterState) : FilterState :=
  { s with selectedCabinet := v }

/-- The type filter pass of `filteredBodyRows`. -/
def typePass (isFilterableView : Bool) (idx : Option Nat) (sel : String) (rows : Grid) : Grid :=
  match idx with
  | none => rows
  | some i =>
    if isFilterableView && sel != "All" then rows.filter (fun r => r.getD i "" == sel)
    else rows

/-- The area filter pass of `filteredBodyRows`. -/
def areaPass (idx : Option Nat) (sel : String) (rows : Grid) : Grid :=
  match idx with
  | none => rows
  | some i =>
    if sel != "All" then rows.filter (fun r => r.getD i "" == sel)
    else rows

/-- The cabinet filter pass of `filteredBodyRows`. -/
def cabinetPass (isEquipmentView : Bool) (idx : Option Nat) (sel : String) (rows : Grid) :
    Grid :=
  match idx with
  | none => rows
  | some i =>
    if isEquipmentView && sel != "All" then rows.filter (fun r => r.getD i "" == sel)
    else rows

/-- The text-search pass of `filteredBodyRows`: active only when a search term
is set; a no-op on rows for the equipment view (search drives column
visibility there), a some-cell-contains filter for the stock views. -/
def searchPass (isEquipmentView : Bool) (searchTerm : String) (rows : Grid) : Grid :=
  if searchTerm == "" then rows
  else if isEquipmentView then rows
  else rows.filter (fun row =>
    row.any (fun cell => cell != "" && strIncludes (lowerStr cell) (lowerStr searchTerm)))

/-- The final equipment-only pass: keep only rows with at least one non-blank
cell. -/
def nonEmptyPass (isEquipmentView : Bool) (rows : Grid) : Grid :=
  if isEquipmentView then
    rows.filter (fun row => row.any (fun cell => cell != "" && jsTrim cell != ""))
  else rows

/-- The memo `filteredBodyRows`: the body rows of the (already reordered) grid after
the type, area, cabinet, search and non-empty passes, applied in source
order. -/
def filteredBodyRows (isFilterableView isEquipmentView : Bool) (headerRowCount : Nat)
    (st : FilterState) (g : Grid) : Grid :=
  nonEmptyPass isEquipmentView
    (searchPass isEquipmentView st.searchTerm
      (cabinetPass isEquipmentView (cabinetColumnIndex isEquipmentView headerRowCount g)
        st.selectedCabinet
        (areaPass (areaColumnIndex headerRowCount g) st.selectedArea
          (typePass isFilterableView (typeColumnIndex isFilterableView headerRowCount g)
            st.selectedType (g.drop headerRowCount)))))

/-- Whether a column index `j ≥ 3` is admitted by `visibleEquipmentColumns`:
in search mode the header-row-0 label must contain the search term
case-insensitively; in default mode some visible row must have a cell parsing
as an integer strictly greater than zero. -/
def colIncluded (searchTerm : String) (hdr : List String) (rows : Grid) (j : Nat) : Bool :=
  if searchTerm != "" then
    hdr.getD j "" != "" && strIncludes (lowerStr (hdr.getD j "")) (lowerStr searchTerm)
  else
    rows.any (fun row =>
      match parseIntJS (row.getD j "") with
      | some n => decide (0 < n)
      | none => false)

/-- The memo `visibleEquipmentColumns`: `none` (render all columns) unless the
equipment view has visible rows; otherwise the indices 0, 1, 2 plus every
further header index admitted by `colIncluded`. -/
def visibleEquipmentColumns (isEquipmentView : Bool) (searchTerm : String)
    (reordered : Option Grid) (rows : Grid) : Option (List Nat) :=
  match reordered with
  | none => none
  | some rd =>
    if !isEquipmentView || rows.isEmpty then none
    else
      some ([0, 1, 2] ++ (List.range (rd.headD []).length).filter
        (fun j => decide (3 ≤ j) && colIncluded searchTerm (rd.headD []) rows j))

/-- The fetch-related component state: held grid, loading flag, error. -/
structure ViewState where
  data : Option Grid
  loading : Bool
  error : Option String
deriving DecidableEq

/-- Outcome of one fetch: a parsed grid, or any transport / format failure
message. -/
inductive FetchResult where
  | success : Grid → FetchResult
  | failure : String → FetchResult

/-- The synchronous start of `fetchData`: an initial load raises the loading
flag and clears the error; a background refresh touches nothing. -/
def fetchStart (isInitialLoad : Bool) (s : ViewState) : ViewState :=
  if isInitialLoad then { s with loading := true, error := none } else s

/-- The `then` / `catch` / `finally` callbacks of `fetchData`, as a function
of the liveness flag captured by the closure (`isMounted`), the load kind and
the fetch outcome: a live success stores the grid (clearing the error on an
initial load), a live failure records the error only on an initial load, and
the `finally` clause lowers the loading flag only for a live initial load. -/
def fetchComplete (isMounted isInitialLoad : Bool) (res : FetchResult) (s : ViewState) :
    ViewState :=
  let s1 :=
    if isMounted then
      match res with
      | FetchResult.success g =>
        let s2 := { s with data := some g }
        if isInitialLoad then { s2 with error := none } else s2
      | FetchResult.failure m =>
        if isInitialLoad then { s with error := some m } else s
    else s
  if isMounted && isInitialLoad then { s1 with loading := false } else s1

theorem firstIdx_append_of_some {p : α → Bool} {l₁ : List α} {i : Nat}
    (h : firstIdx p l₁ = some i) (l₂ : List α) :
    firstIdx p (l₁ ++ l₂) = some i := by
  induction l₁ generalizing i with
  | nil => simp [firstIdx] at h
  | cons x xs ih =>
    by_cases hx : p x
    · simp [firstIdx, hx] at h ⊢
      exact h
    · simp only [firstIdx, hx, Bool.false_eq_true, ite_false, List.cons_append,
        List.append_eq] at h ⊢
      rcases hxs : firstIdx p xs with _ | j
      · rw [hxs] at h; simp at h
      · rw [hxs] at h
        simp only [Option.map_some'] at h
        rw [ih hxs]
        simpa using h

theorem firstIdx_append_of_none {p : α → Bool} {l₁ : List α}
    (h : firstIdx p l₁ = none) (l₂ : List α) :
    firstIdx p (l₁ ++ l₂) = (firstIdx p l₂).map (· + l₁.length) := by
  induction l₁ with
  | nil =>
    rcases h2 : firstIdx p l₂ with _ | j <;> simp [h2]
  | cons x xs ih =>
    by_cases hx : p x
    · simp [firstIdx, hx] at h
    · simp only [firstIdx, hx, Bool.false_eq_true, ite_false] at h
      have hxs : firstIdx p xs = none := by
        rcases hxs : firstIdx p xs with _ | j
        · rfl
        · rw [hxs] at h; simp at h
      simp only [List.cons_append, firstIdx, hx, Bool.false_eq_true, ite_false,
        List.append_eq, ih hxs, List.length_cons]
      rcases h2 : firstIdx p l₂ with _ | j
      · rfl
      · simp only [Option.map_some', Option.some.injEq]
        omega

theorem firstIdx_lt_length {p : α → Bool} {l : List α} {i : Nat}
    (h : firstIdx p l = some i) : i < l.length := by
  induction l generalizing i with
  | nil => simp [firstIdx] at h
  | cons x xs ih =>
    by_cases hx : p x
    · simp [firstIdx, hx] at h
      simp [← h]
    · simp only [firstIdx, hx, Bool.false_eq_true, ite_false] at h
      rcases hxs : firstIdx p xs with _ | j
      · rw [hxs] at h; simp at h
      · rw [hxs] at h
        simp only [Option.map_some', Option.some.injEq] at h
        have := ih hxs
        simp [List.length_cons]
        omega

theorem firstIdx_getD {p : α → Bool} {l : List α} {i : Nat}
    (h : firstIdx p l = some i) (d : α) : p (l.getD i d) = true := by
  induction l generalizing i with
  | nil => simp [firstIdx] at h
  | cons x xs ih =>
    by_cases hx : p x
    · simp [firstIdx, hx] at h
      simp [← h, List.getD, hx]
    · simp only [firstIdx, hx, Bool.false_eq_true, ite_false] at h
      rcases hxs : firstIdx p xs with _ | j
      · rw [hxs] at h; simp at h
      · rw [hxs] at h
        simp only [Option.map_some', Option.some.injEq] at h
        subst h
        simpa [List.getD] using ih hxs

theorem firstIdx_take_of_lt {p : α → Bool} {l : List α} {i k : Nat}
    (h : firstIdx p l = some i) (hk : i < k) :
    firstIdx p (l.take k) = some i := by
  induction l generalizing i k with
  | nil => simp [firstIdx] at h
  | cons x xs ih =>
    rcases k with _ | k'
    · omega
    · by_cases hx : p x
      · simp [firstIdx, hx] at h ⊢
        exact h
      · simp only [firstIdx, hx, Bool.false_eq_true, ite_false] at h
        rcases hxs : firstIdx p xs with _ | j
        · rw [hxs] at h; simp at h
        · rw [hxs] at h
          simp only [Option.map_some', Option.some.injEq] at h
          subst h
          simp only [List.take_succ_cons, firstIdx, hx, Bool.false_eq_true, ite_false]
          rw [ih hxs (by omega)]
          rfl

theorem firstIdx_take_of_le {p : α → Bool} {l : List α} {i k : Nat}
    (h : firstIdx p l = some i) (hk : k ≤ i) :
    firstIdx p (l.take k) = none := by
  induction l generalizing i k with
  | nil => simp [firstIdx] at h
  | cons x xs ih =>
    rcases k with _ | k'
    · simp [firstIdx]
    · by_cases hx : p x
      · simp [firstIdx, hx] at h
        omega
      · simp only [firstIdx, hx, Bool.false_eq_true, ite_false] at h
        rcases hxs : firstIdx p xs with _ | j
        · rw [hxs] at h; simp at h
        · rw [hxs] at h
          simp only [Option.map_some', Option.some.injEq] at h
          subst h
          simp only [List.take_succ_cons, firstIdx, hx, Bool.false_eq_true, ite_false]
          rw [ih hxs (by omega)]
          rfl

theorem firstIdx_drop {p : α → Bool} {l : List α} {i m : Nat}
    (h : firstIdx p l = some i) (hm : m ≤ i) :
    firstIdx p (l.drop m) = some (i - m) := by
  induction l generalizing i m with
  | nil => simp [firstIdx] at h
  | cons x xs ih =>
    rcases m with _ | m'
    · simpa using h
    · by_cases hx : p x
      · simp [firstIdx, hx] at h
        omega
      · simp only [firstIdx, hx, Bool.false_eq_true, ite_false] at h
        rcases hxs : firstIdx p xs with _ | j
        · rw [hxs] at h; simp at h
        · rw [hxs] at h
          simp only [Option.map_some', Option.some.injEq] at h
          subst h
          simp only [List.drop_succ_cons]
          rw [ih hxs (by omega)]
          congr 1
          omega

theorem firstIdx_eq_none_of_forall {p : α → Bool} {l : List α}
    (h : ∀ x ∈ l, p x = false) : firstIdx p l = none := by
  induction l with
  | nil => rfl
  | cons x xs ih =>
    have hx := h x (by simp)
    simp only [firstIdx, hx, Bool.false_eq_true, ite_false]
    rw [ih (fun y hy => h y (by simp [hy]))]
    rfl

theorem firstIdx_filter_ne_nil {p : α → Bool} {l : List α} {i : Nat}
    (h : firstIdx p l = some i) : l.filter p ≠ [] := by
  induction l generalizing i with
  | nil => simp [firstIdx] at h
  | cons x xs ih =>
    by_cases hx : p x
    · simp [List.filter, hx]
    · simp only [firstIdx, hx, Bool.false_eq_true, ite_false] at h
      rcases hxs : firstIdx p xs with _ | j
      · rw [hxs] at h; simp at h
      · simpa [List.filter, hx] using ih hxs

theorem removeAt_eq_take_drop (i : Nat) (l : List α) :
    removeAt i l = l.take i ++ l.drop (i + 1) := by
  induction l generalizing i with
  | nil => simp [removeAt]
  | cons x xs ih =>
    rcases i with _ | j
    · simp [removeAt]
    · simp [removeAt, ih]

theorem spliceInsert_eq_take_drop (i : Nat) (x : α) (l : List α) :
    spliceInsert i x l = l.take i ++ x :: l.drop i := by
  induction l generalizing i with
  | nil => simp [spliceInsert]
  | cons y ys ih =>
    rcases i with _ | j
    · simp [spliceInsert]
    · simp [spliceInsert, ih]

theorem reorderRow_eq_spec (a c : Nat) (row : List String) (hne : c ≠ a) :
    reorderRow a c row = reorderRowAsSpecified a c row := by
  unfold reorderRow reorderRowAsSpecified
  rw [removeAt_eq_take_drop, spliceInsert_eq_take_drop]
  by_cases hlt : c < a
  · simp only [hlt, ite_true]
    have hK : a - 1 + 1 = a := by omega
    rw [hK, List.take_append_eq_append_take, List.drop_append_eq_append_drop,
      List.take_take, Nat.min_eq_right (Nat.le_of_lt hlt),
      List.drop_eq_nil_of_le (show (row.take c).length ≤ a by rw [List.length_take]; omega)]
    rcases le_or_lt c row.length with hcl | hcl
    · have hA : (row.take c).length = c := by rw [List.length_take]; omega
      rw [hA, List.drop_drop]
      have h5 : c + 1 + (a - c) = a + 1 := by omega
      rw [h5]
      simp
    · have hB : row.drop (c + 1) = [] := List.drop_eq_nil_of_le (by omega)
      have hC : row.drop (a + 1) = [] := List.drop_eq_nil_of_le (by omega)
      simp [hB, hC]
  · have hac : a < c := by omega
    simp only [hlt, ite_false]
    rw [List.take_append_eq_append_take, List.drop_append_eq_append_drop,
      List.take_take, Nat.min_eq_left (by omega : a + 1 ≤ c)]
    rcases le_or_lt c row.length with hcl | hcl
    · have hA : (row.take c).length = c := by rw [List.length_take]; omega
      rw [hA]
      have h1 : a + 1 - c = 0 := by omega
      rw [h1]
      simp
    · have hB : row.drop (c + 1) = [] := List.drop_eq_nil_of_le (by omega)
      simp [hB]

theorem matchesLabel_inj {l₁ l₂ x : String}
    (h₁ : matchesLabel l₁ x = true) (h₂ : matchesLabel l₂ x = true) : l₁ = l₂ := by
  simp only [matchesLabel, beq_iff_eq] at h₁ h₂
  rw [← h₁, ← h₂]

theorem area_ne_cabinet_idx {row0 : List String} {a c : Nat}
    (hA : firstIdx (matchesLabel "area") row0 = some a)
    (hC : firstIdx (matchesLabel "cabinet") row0 = some c) : c ≠ a := by
  intro he
  subst he
  have h1 := firstIdx_getD hA ""
  have h2 := firstIdx_getD hC ""
  have h3 := matchesLabel_inj h1 h2
  exact absurd h3 (by decide)

theorem no_match_after_of_unique {q : String → Bool} {row : List String} {c : Nat}
    (hc : firstIdx q row = some c) (huniq : (row.filter q).length ≤ 1) :
    ∀ x ∈ row.drop (c + 1), q x = false := by
  intro x hx
  by_contra hqx
  have hqx' : q x = true := by
    cases hq : q x
    · exact absurd hq hqx
    · rfl
  have h2 : (row.filter q).length =
      ((row.take (c + 1)).filter q).length + ((row.drop (c + 1)).filter q).length := by
    conv_lhs => rw [← List.take_append_drop (c + 1) row]
    rw [List.filter_append, List.length_append]
  have h3 : (row.take (c + 1)).filter q ≠ [] :=
    firstIdx_filter_ne_nil (firstIdx_take_of_lt hc (by omega))
  have h4 : (row.drop (c + 1)).filter q ≠ [] := by
    intro hnil
    have hmem : x ∈ (row.drop (c + 1)).filter q := List.mem_filter.mpr ⟨hx, hqx'⟩
    rw [hnil] at hmem
    simp at hmem
  have h5 : 0 < ((row.take (c + 1)).filter q).length := List.length_pos.mpr h3
  have h6 : 0 < ((row.drop (c + 1)).filter q).length := List.length_pos.mpr h4
  omega

theorem firstIdx_reorderRow {p q : String → Bool} {row : List String} {a c : Nat}
    (hpa : firstIdx p row = some a) (hqc : firstIdx q row = some c) (hne : c ≠ a)
    (huniq : ∀ x ∈ row.drop (c + 1), q x = false) :
    firstIdx p (reorderRow a c row) = some (if c < a then a - 1 else a) ∧
    firstIdx q (reorderRow a c row) = some ((if c < a then a - 1 else a) + 1) := by
  have hlenA := firstIdx_lt_length hpa
  have hlenC := firstIdx_lt_length hqc
  rw [reorderRow_eq_spec a c row hne]
  unfold reorderRowAsSpecified
  by_cases hlt : c < a
  · simp only [hlt, ite_true]
    have hAnone_p : firstIdx p (row.take c) = none := firstIdx_take_of_le hpa (by omega)
    have hAnone_q : firstIdx q (row.take c) = none := firstIdx_take_of_le hqc (by omega)
    have hlenTake : (row.take c).length = c := by rw [List.length_take]; omega
    have hd : firstIdx p (row.drop (c + 1)) = some (a - (c + 1)) := firstIdx_drop hpa (by omega)
    have hm : firstIdx p ((row.drop (c + 1)).take (a - c)) = some (a - (c + 1)) :=
      firstIdx_take_of_lt hd (by omega)
    constructor
    · rw [firstIdx_append_of_none hAnone_p, firstIdx_append_of_some hm, hlenTake]
      simp only [Option.map_some', Option.some.injEq]
      omega
    · have hmq : firstIdx q ((row.drop (c + 1)).take (a - c)) = none := by
        apply firstIdx_eq_none_of_forall
        intro x hx
        exact huniq x ((List.take_sublist _ _).subset hx)
      have hcab : q (row.getD c "") = true := firstIdx_getD hqc ""
      have hcons : firstIdx q (row.getD c "" :: row.drop (a + 1)) = some 0 := by
        simp only [firstIdx, hcab, ite_true]
      have hlenM : ((row.drop (c + 1)).take (a - c)).length = a - c := by
        rw [List.length_take, List.length_drop]; omega
      rw [firstIdx_append_of_none hAnone_q, firstIdx_append_of_none hmq, hcons, hlenM, hlenTake]
      simp only [Option.map_some', Option.some.injEq]
      omega
  · have hac : a < c := by omega
    simp only [hlt, ite_false]
    constructor
    · have h1 : firstIdx p (row.take (a + 1)) = some a := firstIdx_take_of_lt hpa (by omega)
      rw [firstIdx_append_of_some h1]
    · have h1 : firstIdx q (row.take (a + 1)) = none := firstIdx_take_of_le hqc (by omega)
      have hcab : q (row.getD c "") = true := firstIdx_getD hqc ""
      have h2 : firstIdx q
          (row.getD c "" :: ((row.take c).drop (a + 1) ++ row.drop (c + 1))) = some 0 := by
        simp only [firstIdx, hcab, ite_true]
      have hlenTake : (row.take (a + 1)).length = a + 1 := by rw [List.length_take]; omega
      rw [firstIdx_append_of_none h1, h2, hlenTake]
      simp

/-- Claim C1: for the equipment dataset, `reorder` locates the `area` and `cabinet`
columns in header row 0 by case-insensitive trimmed match; if either is absent,
or the cabinet column already immediately follows the area column, it returns
the grid unchanged; otherwise, for every row (header rows included), it removes
the cabinet cell and reinserts it immediately after the (possibly shifted) area
position, preserving the order of all other cells (expressed by
`reorderRowAsSpecified`). -/
theorem reorder_matches_specified_behavior (row0 : List String) (rest : List (List String)) :
    (firstIdx (matchesLabel "area") row0 = none → reorder (row0 :: rest) = row0 :: rest) ∧
    (firstIdx (matchesLabel "cabinet") row0 = none → reorder (row0 :: rest) = row0 :: rest) ∧
    (∀ a c, firstIdx (matchesLabel "area") row0 = some a →
      firstIdx (matchesLabel "cabinet") row0 = some c →
      (c = a + 1 → reorder (row0 :: rest) = row0 :: rest) ∧
      (c ≠ a + 1 →
        reorder (row0 :: rest) = (row0 :: rest).map (reorderRowAsSpecified a c))) := by
  refine ⟨?_, ?_, ?_⟩
  · intro hA
    simp [reorder, hA]
  · intro hC
    rcases hA : firstIdx (matchesLabel "area") row0 with _ | a <;> simp [reorder, hA, hC]
  · intro a c hA hC
    constructor
    · intro hadj
      simp [reorder, hA, hC, hadj]
    · intro hadj
      have hne : c ≠ a := area_ne_cabinet_idx hA hC
      have hfun : reorderRow a c = reorderRowAsSpecified a c :=
        funext fun row => reorderRow_eq_spec a c row hne
      simp [reorder, hA, hC, hadj, hfun]

theorem reorder_witness :
    (reorder [["Desc", "Cabinet", "X", "Area"], ["d", "c", "x", "a"]] =
      [["Desc", "Cabinet", "X", "Area"], ["d", "c", "x", "a"]].map
        (reorderRowAsSpecified 3 1)) ∧
    reorder [["Area", "Cabinet", "Desc"], ["a", "c", "d"]] =
      [["Area", "Cabinet", "Desc"], ["a", "c", "d"]] := by
  constructor
  · exact ((reorder_matches_specified_behavior ["Desc", "Cabinet", "X", "Area"]
      [["d", "c", "x", "a"]]).2.2 3 1 (by decide) (by decide)).2 (by decide)
  · exact ((reorder_matches_specified_behavior ["Area", "Cabinet", "Desc"]
      [["a", "c", "d"]]).2.2 0 1 (by decide) (by decide)).1 (by decide)

/-- Claim C2, counterexample: `reorder` is not idempotent on every grid.  With two
columns labelled `cabinet`, the first one before `area`, a second application
moves the second `cabinet` column again. -/
theorem reorder_not_idempotent :
    reorder (reorder [["cabinet", "cabinet", "area"], ["x", "y", "z"]]) ≠
      reorder [["cabinet", "cabinet", "area"], ["x", "y", "z"]] := by
  decide

/-- Claim C2, amended: `reorder` is idempotent on every grid whose first header row
contains at most one cell matching the label `cabinet` (duplicate `cabinet`
headers located before the `area` column are the only way to defeat
idempotence). -/
theorem reorder_idempotent_of_unique_cabinet (g : Grid)
    (h : ((g.headD []).filter (matchesLabel "cabinet")).length ≤ 1) :
    reorder (reorder g) = reorder g := by
  rcases g with _ | ⟨row0, rest⟩
  · rfl
  · simp only [List.headD_cons] at h
    rcases hA : firstIdx (matchesLabel "area") row0 with _ | a
    · simp [reorder, hA]
    · rcases hC : firstIdx (matchesLabel "cabinet") row0 with _ | c
      · simp [reorder, hA, hC]
      · by_cases hadj : c = a + 1
        · simp [reorder, hA, hC, hadj]
        · have hne : c ≠ a := area_ne_cabinet_idx hA hC
          have huniq := no_match_after_of_unique hC h
          have hmain := firstIdx_reorderRow hA hC hne huniq
          have hg : reorder (row0 :: rest) =
              reorderRow a c row0 :: rest.map (reorderRow a c) := by
            simp [reorder, hA, hC, hadj]
          rw [hg]
          rcases hmain with ⟨hm1, hm2⟩
          simp [reorder, hm1, hm2]

theorem reorder_idempotent_witness :
    ((([["Area", "Desc", "Cabinet"], ["a", "d", "c"]] : Grid).headD
        []).filter (matchesLabel "cabinet")).length ≤ 1 ∧
    reorder (reorder [["Area", "Desc", "Cabinet"], ["a", "d", "c"]]) =
      reorder [["Area", "Desc", "Cabinet"], ["a", "d", "c"]] :=
  ⟨by decide,
    reorder_idempotent_of_unique_cabinet [["Area", "Desc", "Cabinet"], ["a", "d", "c"]]
      (by decide)⟩

theorem string_eq_empty_of_data {s : String} (h : s.data = []) : s = "" := by
  cases s
  simp_all

theorem lowerStr_ne_empty {s : String} (h : s ≠ "") : lowerStr s ≠ "" := by
  intro he
  apply h
  apply string_eq_empty_of_data
  have : (lowerStr s).data = [] := by rw [he]
  simpa [lowerStr] using this

theorem strIncludes_empty_left {pat : String} (h : pat ≠ "") : strIncludes "" pat = false := by
  have hd : pat.data ≠ [] := fun hnil => h (string_eq_empty_of_data hnil)
  rcases hp : pat.data with _ | ⟨c, cs⟩
  · exact absurd hp hd
  · simp [strIncludes, hasSeg, hp, leadsList]

theorem getD_mem_or (l : List α) (i : Nat) (d : α) : l.getD i d ∈ l ∨ l.getD i d = d := by
  induction l generalizing i with
  | nil => right; simp [List.getD]
  | cons x xs ih =>
    rcases i with _ | j
    · left
      rw [List.getD_cons_zero]
      exact List.mem_cons_self x xs
    · rw [List.getD_cons_succ]
      rcases ih j with hm | hd
      · exact Or.inl (List.mem_cons_of_mem x hm)
      · exact Or.inr hd

theorem dedupSeen_mem {seen l : List String} {x : String}
    (h : x ∈ dedupSeen seen l) : x ∈ l ∧ x ∉ seen := by
  induction l generalizing seen with
  | nil => simp [dedupSeen] at h
  | cons y ys ih =>
    cases hy : seen.contains y
    · rw [dedupSeen, hy] at h
      simp only [Bool.false_eq_true, ite_false] at h
      rcases List.mem_cons.mp h with he | hrec
      · subst he
        refine ⟨List.mem_cons_self x ys, ?_⟩
        intro hxs
        have : seen.contains x = true := by simpa using hxs
        rw [this] at hy
        exact Bool.noConfusion hy
      · have := ih hrec
        exact ⟨List.mem_cons_of_mem y this.1,
          fun hxs => this.2 (List.mem_cons_of_mem y hxs)⟩
    · rw [dedupSeen, hy] at h
      simp only [ite_true] at h
      have := ih h
      exact ⟨List.mem_cons_of_mem y this.1, this.2⟩

theorem dedupSeen_nodup (seen l : List String) : (dedupSeen seen l).Nodup := by
  induction l generalizing seen with
  | nil => simp [dedupSeen]
  | cons y ys ih =>
    cases hy : seen.contains y
    · rw [dedupSeen, hy]
      simp only [Bool.false_eq_true, ite_false]
      refine List.nodup_cons.mpr ⟨?_, ih (y :: seen)⟩
      intro hmem
      exact (dedupSeen_mem hmem).2 (List.mem_cons_self y seen)
    · rw [dedupSeen, hy]
      simp only [ite_true]
      exact ih seen

theorem jsUnique_nodup (l : List String) : (jsUnique l).Nodup :=
  dedupSeen_nodup [] l

theorem jsUnique_subset {l : List String} {x : String} (h : x ∈ jsUnique l) : x ∈ l :=
  (dedupSeen_mem h).1

theorem columnValues_mem {i : Nat} {rows : Grid} {x : String}
    (h : x ∈ columnValues i rows) : (∃ row ∈ rows, x ∈ row) ∧ x ≠ "" := by
  unfold columnValues at h
  have h1 := List.mem_filter.mp h
  have hx : x ≠ "" := by simpa using h1.2
  rcases List.mem_map.mp h1.1 with ⟨row, hrow, hxeq⟩
  rcases getD_mem_or row i "" with hm | hd
  · rw [hxeq] at hm
    exact ⟨⟨row, hrow, hm⟩, hx⟩
  · rw [hxeq] at hd
    exact absurd hd hx

theorem nodup_all_cons {vals : List String} (h : ∀ x ∈ vals, x ≠ "All") :
    ("All" :: jsUnique vals).Nodup := by
  refine List.nodup_cons.mpr ⟨?_, jsUnique_nodup vals⟩
  intro hmem
  exact h "All" (jsUnique_subset hmem) rfl

/-- Claim C4, counterexample: a facet option list can contain duplicates when a data
cell is literally `All`, and is empty (not `[All]`) when the facet is
disabled, so the claim fails as stated. -/
theorem facet_options_counterexample :
    typesOptions true 1 [["Type"], ["All"]] = ["All", "All"] ∧
    ¬ (typesOptions true 1 [["Type"], ["All"]]).Nodup ∧
    typesOptions true 1 ([] : Grid) = [] := by
  refine ⟨by decide, by decide, by decide⟩

/-- Claim C4, amended: every derived facet option list is either empty (facet
disabled) or starts with `All`; and whenever no data-row cell equals the
literal string `All`, each list contains no duplicate values. -/
theorem facet_options_head_and_nodup (f e : Bool) (hrc : Nat) (sel : String) (g : Grid) :
    (typesOptions f hrc g = [] ∨ (typesOptions f hrc g).head? = some "All") ∧
    (areasOptions hrc g = [] ∨ (areasOptions hrc g).head? = some "All") ∧
    (cabinetsOptions e sel hrc g = [] ∨ (cabinetsOptions e sel hrc g).head? = some "All") ∧
    ((∀ row ∈ g.drop hrc, ∀ cell ∈ row, cell ≠ "All") →
      (typesOptions f hrc g).Nodup ∧ (areasOptions hrc g).Nodup ∧
        (cabinetsOptions e sel hrc g).Nodup) := by
  have hvals : ∀ (i : Nat) (rows : Grid), (∀ row ∈ rows, ∀ cell ∈ row, cell ≠ "All") →
      ∀ x ∈ columnValues i rows, x ≠ "All" := by
    intro i rows hall x hx
    rcases columnValues_mem hx with ⟨⟨row, hrow, hxr⟩, -⟩
    exact hall row hrow x hxr
  refine ⟨?_, ?_, ?_, ?_⟩
  · rcases ht : typeColumnIndex f hrc g with _ | i <;> simp [typesOptions, ht]
  · rcases ha : areaColumnIndex hrc g with _ | i <;> simp [areasOptions, ha]
  · rcases hc : cabinetColumnIndex e hrc g with _ | ci
    · left; simp [cabinetsOptions, hc]
    · unfold cabinetsOptions
      rw [hc]
      by_cases hsel : (sel == "All") = true
      · left; simp [hsel]
      · rcases ha : areaColumnIndex hrc g with _ | ai
        · left; simp [hsel, ha]
        · simp only [hsel, Bool.false_eq_true, ite_false, ha]
          split
          · left; rfl
          · right; rfl
  · intro hall
    refine ⟨?_, ?_, ?_⟩
    · rcases ht : typeColumnIndex f hrc g with _ | i
      · simp [typesOptions, ht]
      · simp only [typesOptions, ht]
        exact nodup_all_cons (hvals i _ hall)
    · rcases ha : areaColumnIndex hrc g with _ | i
      · simp [areasOptions, ha]
      · simp only [areasOptions, ha]
        exact nodup_all_cons (hvals i _ hall)
    · rcases hc : cabinetColumnIndex e hrc g with _ | ci
      · simp [cabinetsOptions, hc]
      · unfold cabinetsOptions
        rw [hc]
        by_cases hsel : (sel == "All") = true
        · simp [hsel]
        · rcases ha : areaColumnIndex hrc g with _ | ai
          · simp [hsel, ha]
          · simp only [hsel, Bool.false_eq_true, ite_false, ha]
            split
            · exact List.nodup_nil
            · apply nodup_all_cons
              intro x hx
              apply hvals ci _ ?_ x hx
              intro row hrow
              exact hall row (List.mem_filter.mp hrow).1

theorem facet_options_witness :
    (∀ row ∈ ([["Type"], ["a"], ["b"], ["a"]] : Grid).drop 1, ∀ cell ∈ row, cell ≠ "All") ∧
    (typesOptions true 1 [["Type"], ["a"], ["b"], ["a"]]).Nodup := by
  have h := facet_options_head_and_nodup true true 1 "All" [["Type"], ["a"], ["b"], ["a"]]
  exact ⟨by decide, (h.2.2.2 (by decide)).1⟩

/-- Claim C10: a grid with fewer than `headerRowCount + 1` rows (header rows but no
data rows) yields three empty facet option lists, not `[All]`. -/
theorem facets_empty_without_data_rows (f e : Bool) (hrc : Nat) (sel : String) (g : Grid)
    (h : g.length < hrc + 1) :
    typesOptions f hrc g = [] ∧ areasOptions hrc g = [] ∧
      cabinetsOptions e sel hrc g = [] := by
  have ht : typeColumnIndex f hrc g = none := by
    unfold typeColumnIndex
    split
    · rfl
    · simp [h]
  have ha : areaColumnIndex hrc g = none := by
    unfold areaColumnIndex
    simp [h]
  have hc : cabinetColumnIndex e hrc g = none := by
    unfold cabinetColumnIndex
    split
    · rfl
    · simp [h]
  exact ⟨by simp [typesOptions, ht], by simp [areasOptions, ha],
    by simp [cabinetsOptions, hc]⟩

theorem facets_empty_witness :
    ([["Area", "Cabinet", "Desc"], ["h2"], ["h3"], ["h4"]] : Grid).length < 4 + 1 ∧
    typesOptions true 4 [["Area", "Cabinet", "Desc"], ["h2"], ["h3"], ["h4"]] = [] ∧
    areasOptions 4 [["Area", "Cabinet", "Desc"], ["h2"], ["h3"], ["h4"]] = [] ∧
    cabinetsOptions true "All" 4 [["Area", "Cabinet", "Desc"], ["h2"], ["h3"], ["h4"]] = [] :=
  ⟨by decide, facets_empty_without_data_rows true true 4 "All"
    [["Area", "Cabinet", "Desc"], ["h2"], ["h3"], ["h4"]] (by decide)⟩

/-- Claim C5: selecting a new area value always resets the selected cabinet to
`All` (and records the new area), while selecting a cabinet never changes the
selected area: the dependency is one-directional, area to cabinet only. -/
theorem area_selection_resets_cabinet (v : String) (s : FilterState) :
    (v ≠ s.selectedArea →
      (selectArea v s).selectedCabinet = "All" ∧ (selectArea v s).selectedArea = v) ∧
    (selectCabinet v s).selectedArea = s.selectedArea := by
  constructor
  · intro hv
    have hb : (v == s.selectedArea) = false := by simp [hv]
    simp [selectArea, hb]
  · rfl

theorem area_selection_witness :
    ("North" : String) ≠ (FilterState.mk "All" "All" "C1" "x").selectedArea ∧
    (selectArea "North" (FilterState.mk "All" "All" "C1" "x")).selectedCabinet = "All" ∧
    (selectCabinet "C2" (FilterState.mk "All" "All" "C1" "x")).selectedArea = "All" := by
  have h := area_selection_resets_cabinet "North" (FilterState.mk "All" "All" "C1" "x")
  have h2 := area_selection_resets_cabinet "C2" (FilterState.mk "All" "All" "C1" "x")
  exact ⟨by decide, (h.1 (by decide)).1, h2.2⟩

/-- Claim C6: in the text-search pass, the equipment view keeps every row unchanged
(search is a no-op on rows), while for non-equipment views an active search
keeps exactly the rows with some cell that case-insensitively contains the
search substring. -/
theorem search_pass_semantics (searchTerm : String) (rows : Grid) :
    searchPass true searchTerm rows = rows ∧
    (searchTerm ≠ "" → ∀ row,
      (row ∈ searchPass false searchTerm rows ↔
        row ∈ rows ∧ ∃ cell ∈ row,
          strIncludes (lowerStr cell) (lowerStr searchTerm) = true)) := by
  constructor
  · cases h : searchTerm == "" <;> simp [searchPass, h]
  · intro hne row
    have hb : (searchTerm == "") = false := by simp [hne]
    simp only [searchPass, hb, Bool.false_eq_true, ite_false]
    rw [List.mem_filter]
    constructor
    · rintro ⟨hmem, hpred⟩
      refine ⟨hmem, ?_⟩
      rcases List.any_eq_true.mp hpred with ⟨cell, hcell, hc⟩
      simp only [Bool.and_eq_true] at hc
      exact ⟨cell, hcell, hc.2⟩
    · rintro ⟨hmem, cell, hcell, hinc⟩
      refine ⟨hmem, List.any_eq_true.mpr ⟨cell, hcell, ?_⟩⟩
      have hcne : (cell != "") = true := by
        rcases eq_or_ne cell "" with he | hn
        · subst he
          have hlow : lowerStr "" = "" := rfl
          rw [hlow, strIncludes_empty_left (lowerStr_ne_empty hne)] at hinc
          exact Bool.noConfusion hinc
        · simp [hn]
      rw [hcne, hinc]
      rfl

theorem search_pass_witness :
    ("pump" : String) ≠ "" ∧
    (searchPass true "pump" [["North", "C1", "Valve"]] = [["North", "C1", "Valve"]]) ∧
    (["South", "C2", "Pump"] ∈
        searchPass false "pump" [["North", "C1", "Valve"], ["South", "C2", "Pump"]] ↔
      ["South", "C2", "Pump"] ∈ ([["North", "C1", "Valve"], ["South", "C2", "Pump"]] : Grid) ∧
        ∃ cell ∈ ["South", "C2", "Pump"],
          strIncludes (lowerStr cell) (lowerStr "pump") = true) := by
  refine ⟨by decide, (search_pass_semantics "pump" [["North", "C1", "Valve"]]).1, ?_⟩
  exact (search_pass_semantics "pump" [["North", "C1", "Valve"], ["South", "C2", "Pump"]]).2
    (by decide) ["South", "C2", "Pump"]

/-- Claim C7: a background refresh failure after a successful initial load leaves
the whole view state (held grid, loading flag, error) unchanged, while an
initial-load failure surfaces the error message. -/
theorem background_failure_swallowed (s : ViewState) (m : String) :
    fetchComplete true false (FetchResult.failure m) (fetchStart false s) = s ∧
    (fetchComplete true true (FetchResult.failure m) (fetchStart true s)).error = some m := by
  constructor
  · rfl
  · rfl

/-- Claim C8: once the liveness flag is cleared (unmount or a change of the
(area, datasetKind) pair), a late-arriving fetch response or error mutates no
state at all: grid data, loading flag and error state stay unchanged. -/
theorem no_mutation_after_cancellation (isInitialLoad : Bool) (res : FetchResult)
    (s : ViewState) :
    fetchComplete false isInitialLoad res s = s := by
  cases res <;> rfl

theorem typePass_sublist (f : Bool) (idx : Option Nat) (sel : String) (rows : Grid) :
    (typePass f idx sel rows).Sublist rows := by
  unfold typePass
  split
  · exact List.Sublist.refl _
  · split
    · exact List.filter_sublist _
    · exact List.Sublist.refl _

theorem areaPass_sublist (idx : Option Nat) (sel : String) (rows : Grid) :
    (areaPass idx sel rows).Sublist rows := by
  unfold areaPass
  split
  · exact List.Sublist.refl _
  · split
    · exact List.filter_sublist _
    · exact List.Sublist.refl _

theorem cabinetPass_sublist (e : Bool) (idx : Option Nat) (sel : String) (rows : Grid) :
    (cabinetPass e idx sel rows).Sublist rows := by
  unfold cabinetPass
  split
  · exact List.Sublist.refl _
  · split
    · exact List.filter_sublist _
    · exact List.Sublist.refl _

theorem searchPass_sublist (e : Bool) (t : String) (rows : Grid) :
    (searchPass e t rows).Sublist rows := by
  unfold searchPass
  split
  · exact List.Sublist.refl _
  · split
    · exact List.Sublist.refl _
    · exact List.filter_sublist _

theorem nonEmptyPass_sublist (e : Bool) (rows : Grid) :
    (nonEmptyPass e rows).Sublist rows := by
  unfold nonEmptyPass
  split
  · exact List.filter_sublist _
  · exact List.Sublist.refl _

theorem typeColumnIndex_none (f : Bool) (hrc : Nat) (g : Grid)
    (h : firstIdx (matchesLabel "type") (g.headD []) = none) :
    typeColumnIndex f hrc g = none := by
  unfold typeColumnIndex
  split
  · rfl
  · split
    · rfl
    · exact h

theorem areaColumnIndex_none (hrc : Nat) (g : Grid)
    (h : firstIdx (matchesLabel "area") (g.headD []) = none) :
    areaColumnIndex hrc g = none := by
  unfold areaColumnIndex
  split
  · rfl
  · exact h

theorem cabinetColumnIndex_none (e : Bool) (hrc : Nat) (g : Grid)
    (h : firstIdx (matchesLabel "cabinet") (g.headD []) = none) :
    cabinetColumnIndex e hrc g = none := by
  unfold cabinetColumnIndex
  split
  · rfl
  · split
    · rfl
    · exact h

/-- Claim C9: the filter recomputation is total and only narrows — the filtered
rows are always a sublist of the data rows — and an absent marker column
(`type`, `area`, `cabinet`) disables the corresponding facet (empty option
list) while its filter pass degrades to a no-op: the result is the same as if
that facet were at its neutral `All` value. -/
theorem filtering_total_and_degrades (f e : Bool) (hrc : Nat) (st : FilterState) (g : Grid) :
    (filteredBodyRows f e hrc st g).Sublist (g.drop hrc) ∧
    (firstIdx (matchesLabel "type") (g.headD []) = none →
      typesOptions f hrc g = [] ∧
      filteredBodyRows f e hrc st g =
        filteredBodyRows f e hrc { st with selectedType := "All" } g) ∧
    (firstIdx (matchesLabel "area") (g.headD []) = none →
      areasOptions hrc g = [] ∧
      filteredBodyRows f e hrc st g =
        filteredBodyRows f e hrc { st with selectedArea := "All" } g) ∧
    (firstIdx (matchesLabel "cabinet") (g.headD []) = none →
      cabinetsOptions e st.selectedArea hrc g = [] ∧
      filteredBodyRows f e hrc st g =
        filteredBodyRows f e hrc { st with selectedCabinet := "All" } g) := by
  refine ⟨?_, ?_, ?_, ?_⟩
  · unfold filteredBodyRows
    exact ((((nonEmptyPass_sublist _ _).trans (searchPass_sublist _ _ _)).trans
      (cabinetPass_sublist _ _ _ _)).trans (areaPass_sublist _ _ _)).trans
      (typePass_sublist _ _ _ _)
  · intro h
    have ht := typeColumnIndex_none f hrc g h
    exact ⟨by simp [typesOptions, ht], by simp [filteredBodyRows, ht, typePass]⟩
  · intro h
    have ha := areaColumnIndex_none hrc g h
    exact ⟨by simp [areasOptions, ha], by simp [filteredBodyRows, ha, areaPass]⟩
  · intro h
    have hc := cabinetColumnIndex_none e hrc g h
    exact ⟨by simp [cabinetsOptions, hc], by simp [filteredBodyRows, hc, cabinetPass]⟩

theorem filtering_degrades_witness :
    firstIdx (matchesLabel "type") (([["Name", "Qty"], ["n1", "2"]] : Grid).headD []) = none ∧
    typesOptions true 1 [["Name", "Qty"], ["n1", "2"]] = [] ∧
    filteredBodyRows true false 1 (FilterState.mk "Pump" "All" "All" "")
        [["Name", "Qty"], ["n1", "2"]] =
      filteredBodyRows true false 1 (FilterState.mk "All" "All" "All" "")
        [["Name", "Qty"], ["n1", "2"]] := by
  have h := filtering_total_and_degrades true false 1 (FilterState.mk "Pump" "All" "All" "")
    [["Name", "Qty"], ["n1", "2"]]
  exact ⟨by decide, (h.2.1 (by decide)).1, (h.2.1 (by decide)).2⟩

theorem header_cell_search_iff {h t : String} (hne : t ≠ "") :
    ((h != "") && strIncludes (lowerStr h) (lowerStr t)) = true ↔
      strIncludes (lowerStr h) (lowerStr t) = true := by
  constructor
  · intro hh
    simp only [Bool.and_eq_true] at hh
    exact hh.2
  · intro hh
    have hhne : (h != "") = true := by
      rcases eq_or_ne h "" with he | hn
      · subst he
        have hlow : lowerStr "" = "" := rfl
        rw [hlow, strIncludes_empty_left (lowerStr_ne_empty hne)] at hh
        exact Bool.noConfusion hh
      · simp [hn]
    rw [hhne, hh]
    rfl

/-- Claim C3: for the equipment dataset and every existing column index `j ≥ 3`,
with visible rows present: when a search term is active, `j` is in the
visible-column set iff the header-row-0 label case-insensitively contains the
search term (independent of body cell content); when no search term is active,
`j` is in the set iff at least one currently-visible data row has a cell in
column `j` parsing as an integer strictly greater than zero. -/
theorem visible_columns_semantics (searchTerm : String) (rd rows : Grid)
    (hrows : rows ≠ []) (j : Nat) (h3 : 3 ≤ j) (hlt : j < (rd.headD []).length) :
    ∃ vis, visibleEquipmentColumns true searchTerm (some rd) rows = some vis ∧
      (searchTerm ≠ "" →
        (j ∈ vis ↔
          strIncludes (lowerStr ((rd.headD []).getD j "")) (lowerStr searchTerm) = true)) ∧
      (searchTerm = "" →
        (j ∈ vis ↔ ∃ row ∈ rows, ∃ n : Int,
          parseIntJS (row.getD j "") = some n ∧ 0 < n)) := by
  have hre : rows.isEmpty = false := by
    cases rows
    · exact absurd rfl hrows
    · rfl
  have hmem : ∀ t : String, j ∈ [0, 1, 2] ++ (List.range (rd.headD []).length).filter
      (fun k => decide (3 ≤ k) && colIncluded t (rd.headD []) rows k) ↔
      colIncluded t (rd.headD []) rows j = true := by
    intro t
    constructor
    · intro h
      rcases List.mem_append.mp h with h | h
      · exfalso
        simp only [List.mem_cons, List.not_mem_nil, or_false] at h
        omega
      · have := (List.mem_filter.mp h).2
        simp only [Bool.and_eq_true] at this
        exact this.2
    · intro hc
      refine List.mem_append.mpr (Or.inr ?_)
      refine List.mem_filter.mpr ⟨List.mem_range.mpr hlt, ?_⟩
      simp only [Bool.and_eq_true, decide_eq_true_eq]
      exact ⟨h3, hc⟩
  refine ⟨[0, 1, 2] ++ (List.range (rd.headD []).length).filter
      (fun k => decide (3 ≤ k) && colIncluded searchTerm (rd.headD []) rows k), ?_, ?_, ?_⟩
  · simp [visibleEquipmentColumns, hre]
  · intro hne
    rw [hmem searchTerm]
    have hb : (searchTerm != "") = true := by simp [hne]
    unfold colIncluded
    split
    · exact header_cell_search_iff hne
    · rename_i hcond
      exact absurd hb hcond
  · intro hte
    subst hte
    rw [hmem ""]
    unfold colIncluded
    split
    · rename_i hcond
      simp at hcond
    · rw [List.any_eq_true]
      constructor
      · rintro ⟨row, hrow, hp⟩
        refine ⟨row, hrow, ?_⟩
        rcases hpi : parseIntJS (row.getD j "") with _ | n
        · rw [hpi] at hp
          simp at hp
        · rw [hpi] at hp
          simp only [decide_eq_true_eq] at hp
          exact ⟨n, rfl, hp⟩
      · rintro ⟨row, hrow, n, hpi, hn⟩
        refine ⟨row, hrow, ?_⟩
        rw [hpi]
        simpa using hn

theorem visible_columns_witness :
    ∃ vis, visibleEquipmentColumns true "" (some [["Area", "Cabinet", "Desc", "Slot1"]])
        [["North", "C1", "Valve", "5"]] = some vis ∧
      (("" : String) ≠ "" →
        (3 ∈ vis ↔ strIncludes
          (lowerStr ((([["Area", "Cabinet", "Desc", "Slot1"]] : Grid).headD []).getD 3 ""))
          (lowerStr "") = true)) ∧
      (("" : String) = "" →
        (3 ∈ vis ↔ ∃ row ∈ ([["North", "C1", "Valve", "5"]] : Grid), ∃ n : Int,
          parseIntJS (row.getD 3 "") = some n ∧ 0 < n)) :=
  visible_columns_semantics "" [["Area", "Cabinet", "Desc", "Slot1"]]
    [["North", "C1", "Valve", "5"]] (by decide) 3 (by decide) (by decide)

end Invengo
